import Mathlib

/-!
Verification development for the KhananNetra tiled raster-to-polygon
detection pipeline (python-backend).

The Python sources are shallowly embedded:

* `app/services/tile_fetching_service.py` (`calculate_tile_grid`) — the
  grid planner, embedded over exact rationals.  The quantity
  `math.cos(math.radians(center_lat))` is taken as an explicit rational
  parameter `cosCenterLat` of the embedding, since trigonometric values
  are not rational; every theorem about the planner holds for an
  arbitrary positive value of this parameter.
* `app/routers/analysis_realtime.py` (`build_mosaic_from_tiles`,
  `_ensure_tile_transform`) — mosaic assembly.  The external call
  `rasterio.merge.merge(datasets, method="first")` is modelled from its
  documented semantics (axis-aligned rasters; output grid from the
  union of bounds at the first dataset's resolution; each output cell
  takes the value of the first dataset in sequence covering it, with a
  fill value elsewhere).
* `app/services/ml_inference_subprocess.py` (`main`,
  `create_gaussian_weight_map`) — the patch-blending weight arithmetic,
  embedded over the reals (the weight mask uses a square root).
* `app/utils/postprocess.py` (`process_prediction_to_polygons`) — the
  vectorizer.  Calls into OpenCV (Otsu threshold, morphology, contour
  extraction, contour area, filled-contour rasterization), shapely
  (polygon construction / repair / centroid / bounds) and hashlib
  (sha1) are external library capabilities; they are modelled as fields
  of an explicit oracle structure `ExternalOps`, which the embedding
  threads through exactly where the Python code calls the library.
-/

/-- Rasterio affine transform with the six coefficients
`(a, b, c, d, e, f)`; it maps pixel coordinates `(x, y)` to
`(a*x + b*y + c, d*x + e*y + f)`. -/
structure Affine where
  a : ℚ
  b : ℚ
  c : ℚ
  d : ℚ
  e : ℚ
  f : ℚ
deriving DecidableEq

/-- The identity transform `Affine.identity()` of rasterio. -/
def Affine.identity : Affine := ⟨1, 0, 0, 0, 1, 0⟩

/-- Application `transform * (x, y)` of a rasterio affine transform to a
coordinate pair. -/
def Affine.apply (t : Affine) (p : ℚ × ℚ) : ℚ × ℚ :=
  (t.a * p.1 + t.b * p.2 + t.c, t.d * p.1 + t.e * p.2 + t.f)

namespace TileGrid

/-- One tile dictionary produced by
`TileFetchingService.calculate_tile_grid`: identifier, grid indices, the
explicit closed 5-point bounds ring, the centre point and the fixed
pixel size / resolution metadata. -/
structure Tile where
  id : ℕ
  row : ℕ
  col : ℕ
  bounds : List (ℚ × ℚ)
  center : ℚ × ℚ
  size_pixels : ℚ
  resolution : ℚ
deriving DecidableEq

/-- Number of iterations of a Python loop
`while v < hi: ...; v += d` started at `v = lo`: the least `r` with
`lo + r*d ≥ hi`, i.e. `⌈(hi - lo)/d⌉` clamped to `ℕ` (for `d > 0`). -/
def stepCount (lo hi d : ℚ) : ℕ := (Int.ceil ((hi - lo) / d)).toNat

/-- `tile_deg_lat = (tile_size * resolution / 1000) / 111.0` from
`calculate_tile_grid`. -/
def tileDegLat (tile_size resolution : ℚ) : ℚ :=
  (tile_size * resolution / 1000) / 111

/-- `tile_deg_lon = (tile_size * resolution / 1000) /
(111.0 * cos(radians(center_lat)))`; the cosine value is the parameter
`cosCenterLat`. -/
def tileDegLon (tile_size resolution cosCenterLat : ℚ) : ℚ :=
  (tile_size * resolution / 1000) / (111 * cosCenterLat)

/-- The tile emitted at row `r`, column `c` of the grid walk: its
south-west corner sits at the buffered minimum plus `r`/`c` whole steps,
and its id is the running counter, which equals `r * numCols + c`
because every row emits the same number of columns. -/
def mkTile (numCols : ℕ) (r c : ℕ) (extMinLon extMinLat dLon dLat : ℚ)
    (tile_size resolution : ℚ) : Tile :=
  let lon := extMinLon + (c : ℚ) * dLon
  let lat := extMinLat + (r : ℚ) * dLat
  { id := r * numCols + c
    row := r
    col := c
    bounds := [(lon, lat), (lon + dLon, lat), (lon + dLon, lat + dLat),
               (lon, lat + dLat), (lon, lat)]
    center := (lon + dLon / 2, lat + dLat / 2)
    size_pixels := tile_size
    resolution := resolution }

/-- Embedding of `TileFetchingService.calculate_tile_grid`, lines
41–130 of `tile_fetching_service.py`, over exact rationals.  Inputs are
the AOI bounding box (already extracted from the Earth Engine bounds
ring), the ground resolution, the tile edge length in pixels
(`self.tile_size`), and the rational parameter standing for
`math.cos(math.radians(center_lat))`.  The float accumulation
`lat += tile_deg_lat` is exact here, so row `r` starts at
`extended_min_lat + r * tile_deg_lat`. -/
def calculate_tile_grid (minLon maxLon minLat maxLat : ℚ)
    (resolution tile_size cosCenterLat : ℚ) : List Tile :=
  let dLat := tileDegLat tile_size resolution
  let dLon := tileDegLon tile_size resolution cosCenterLat
  let bufferDegrees := dLat * (1/10)
  let extMinLat := minLat - bufferDegrees
  let extMaxLat := maxLat + bufferDegrees
  let extMinLon := minLon - dLon * (1/10)
  let extMaxLon := maxLon + dLon * (1/10)
  let numRows := stepCount extMinLat extMaxLat dLat
  let numCols := stepCount extMinLon extMaxLon dLon
  (List.range numRows).flatMap fun r =>
    (List.range numCols).map fun c =>
      mkTile numCols r c extMinLon extMinLat dLon dLat tile_size resolution

/-- A point lies inside the axis-aligned bounds ring
`[sw, se, ne, nw, sw]` of a tile when its coordinates are between the
south-west and north-east corners (boundary included). -/
def ringContainsBBox (ring : List (ℚ × ℚ)) (p : ℚ × ℚ) : Bool :=
  match ring with
  | [sw, _se, ne, _nw, _closing] =>
      decide (sw.1 ≤ p.1 ∧ p.1 ≤ ne.1 ∧ sw.2 ≤ p.2 ∧ p.2 ≤ ne.2)
  | _ => false

end TileGrid

namespace Mosaic

/-- A georeferenced raster: pixel grid dimensions, affine transform,
CRS string and pixel contents.  The pixel value type `α` stands for the
per-pixel payload (all bands); `rasterio.merge` copies it unchanged. -/
structure GeoRaster (α : Type) where
  h : ℕ
  w : ℕ
  transform : Affine
  crs : String
  px : ℕ → ℕ → α

/-- West edge of a raster (`transform.c`). -/
def GeoRaster.left {α : Type} (d : GeoRaster α) : ℚ := d.transform.c

/-- North edge of a raster (`transform.f`). -/
def GeoRaster.top {α : Type} (d : GeoRaster α) : ℚ := d.transform.f

/-- East edge of a raster. -/
def GeoRaster.right {α : Type} (d : GeoRaster α) : ℚ :=
  d.transform.c + (d.w : ℚ) * d.transform.a

/-- South edge of a raster (for the usual north-up `e < 0`). -/
def GeoRaster.bottom {α : Type} (d : GeoRaster α) : ℚ :=
  d.transform.f + (d.h : ℚ) * d.transform.e

/-- Output resolution of the merge: the first dataset's. -/
def resX {α : Type} (d0 : GeoRaster α) : ℚ := |d0.transform.a|

/-- Output resolution of the merge: the first dataset's. -/
def resY {α : Type} (d0 : GeoRaster α) : ℚ := |d0.transform.e|

/-- West edge of the merged extent (minimum over all datasets). -/
def dstWest {α : Type} (d0 : GeoRaster α) (ds : List (GeoRaster α)) : ℚ :=
  ds.foldl (fun m d => min m d.left) d0.left

/-- North edge of the merged extent (maximum over all datasets). -/
def dstNorth {α : Type} (d0 : GeoRaster α) (ds : List (GeoRaster α)) : ℚ :=
  ds.foldl (fun m d => max m d.top) d0.top

/-- East edge of the merged extent (maximum over all datasets). -/
def dstEast {α : Type} (d0 : GeoRaster α) (ds : List (GeoRaster α)) : ℚ :=
  ds.foldl (fun m d => max m d.right) d0.right

/-- South edge of the merged extent (minimum over all datasets). -/
def dstSouth {α : Type} (d0 : GeoRaster α) (ds : List (GeoRaster α)) : ℚ :=
  ds.foldl (fun m d => min m d.bottom) d0.bottom

/-- Width in pixels of the merged raster:
`int(round((dst_e - dst_w) / res_x))`. -/
def outW {α : Type} (d0 : GeoRaster α) (ds : List (GeoRaster α)) : ℕ :=
  (round ((dstEast d0 ds - dstWest d0 ds) / resX d0)).toNat

/-- Height in pixels of the merged raster. -/
def outH {α : Type} (d0 : GeoRaster α) (ds : List (GeoRaster α)) : ℕ :=
  (round ((dstNorth d0 ds - dstSouth d0 ds) / resY d0)).toNat

/-- Row offset of a source dataset inside the merged grid. -/
def rowOff {α : Type} (d0 : GeoRaster α) (ds : List (GeoRaster α))
    (d : GeoRaster α) : ℤ :=
  round ((dstNorth d0 ds - d.top) / resY d0)

/-- Column offset of a source dataset inside the merged grid. -/
def colOff {α : Type} (d0 : GeoRaster α) (ds : List (GeoRaster α))
    (d : GeoRaster α) : ℤ :=
  round ((d.left - dstWest d0 ds) / resX d0)

/-- Whether a source dataset contributes a pixel at merged cell
`(i, j)`. -/
def coversB {α : Type} (d0 : GeoRaster α) (ds : List (GeoRaster α))
    (d : GeoRaster α) (i j : ℕ) : Bool :=
  decide (rowOff d0 ds d ≤ (i : ℤ) ∧ (i : ℤ) < rowOff d0 ds d + d.h ∧
          colOff d0 ds d ≤ (j : ℤ) ∧ (j : ℤ) < colOff d0 ds d + d.w)

/-- Pixel content of the merged raster: the value of the first dataset
in sequence whose footprint covers the cell (`method="first"`); cells
covered by no dataset keep the fill value (rasterio fills with the
nodata value, `0` for these float rasters). -/
def mergedPx {α : Type} (fill : α) (d0 : GeoRaster α)
    (ds : List (GeoRaster α)) (i j : ℕ) : α :=
  match (d0 :: ds).find? (fun d => coversB d0 ds d i j) with
  | some d => d.px ((i : ℤ) - rowOff d0 ds d).toNat ((j : ℤ) - colOff d0 ds d).toNat
  | none => fill

/-- Model of `rasterio.merge.merge(datasets, method="first")` for a
non-empty dataset list, from the library's documented semantics:
output grid spans the union of the input bounds at the first dataset's
resolution, output transform is
`translation(dst_w, dst_n) * scale(res_x, -res_y)`, and each cell takes
the value of the earliest covering dataset. -/
def mergeFirst {α : Type} (fill : α) (d0 : GeoRaster α)
    (ds : List (GeoRaster α)) : GeoRaster α :=
  { h := outH d0 ds
    w := outW d0 ds
    transform := ⟨resX d0, 0, dstWest d0 ds, 0, -(resY d0), dstNorth d0 ds⟩
    crs := d0.crs
    px := mergedPx fill d0 ds }

/-- Pixel payload of one cached tile (`tile["data"]`): array dimensions
and contents. -/
structure TileData (α : Type) where
  h : ℕ
  w : ℕ
  px : ℕ → ℕ → α

/-- One entry of `tile_data_list` handed to `build_mosaic_from_tiles`:
optional pixel data, optional affine transform, optional CRS string and
the bounds ring used to derive a transform when it is missing. -/
structure MosaicTile (α : Type) where
  data : Option (TileData α)
  transform : Option Affine
  crs : Option String
  bounds : List (ℚ × ℚ)

/-- Python truthiness for the expression `tile.get("crs") or default`:
`None` and the empty string fall back to the default. -/
def orDefault (o : Option String) (dflt : String) : String :=
  match o with
  | some s => if s = "" then dflt else s
  | none => dflt

/-- Minimum of a list of rationals with a seed (used for the
`min(pt[0] for pt in bounds)` expressions). -/
def listMinD (l : List ℚ) (seed : ℚ) : ℚ := l.foldl min seed

/-- Maximum of a list of rationals with a seed. -/
def listMaxD (l : List ℚ) (seed : ℚ) : ℚ := l.foldl max seed

/-- Embedding of `_ensure_tile_transform` (lines 50–71 of
`analysis_realtime.py`) for a tile whose data is present: resolve the
CRS with the `or "EPSG:4326"` fallback and, when the transform is
missing, derive it from the bounds ring and pixel shape via
`rasterio.transform.from_bounds`. -/
def ensureTileTransform {α : Type} (t : MosaicTile α) (d : TileData α) :
    Except String (GeoRaster α) :=
  let crs := orDefault t.crs ("EPSG:4326")
  match t.transform with
  | some tr => .ok ⟨d.h, d.w, tr, crs, d.px⟩
  | none =>
      if t.bounds.length < 4 then
        .error ("Tile is missing bounds required to derive transform")
      else
        let xs := t.bounds.map Prod.fst
        let ys := t.bounds.map Prod.snd
        let minLon := listMinD xs (xs.headD 0)
        let maxLon := listMaxD xs (xs.headD 0)
        let minLat := listMinD ys (ys.headD 0)
        let maxLat := listMaxD ys (ys.headD 0)
        -- rasterio.transform.from_bounds(min_lon, min_lat, max_lon, max_lat, width, height)
        let tr : Affine := ⟨(maxLon - minLon) / (d.w : ℚ), 0, minLon, 0,
                            -((maxLat - minLat) / (d.h : ℚ)), maxLat⟩
        .ok ⟨d.h, d.w, tr, crs, d.px⟩

/-- The tuple returned by `build_mosaic_from_tiles`: mosaic array with
its transform, the chosen CRS and the closed 5-point bounds ring. -/
structure MosaicResult (α : Type) where
  raster : GeoRaster α
  crs : String
  bounds : List (ℚ × ℚ)

/-- Embedding of `build_mosaic_from_tiles` (lines 116–181 of
`analysis_realtime.py`): reject an empty tile list, skip tiles whose
data is missing, resolve each remaining tile's transform and CRS,
reject the case of zero usable datasets, merge with the first-wins
policy, choose the first usable dataset's CRS, and compute the output
bounds ring from the merged transform and dimensions
(`rasterio.transform.array_bounds`). -/
def build_mosaic_from_tiles {α : Type} (fill : α)
    (tiles : List (MosaicTile α)) : Except String (MosaicResult α) :=
  if tiles.isEmpty then .error ("No tile data available to build mosaic")
  else do
    let datasets ← tiles.foldlM (fun acc t =>
      match t.data with
      | none => pure acc
      | some d => do
          let g ← ensureTileTransform t d
          pure (acc ++ [g])) ([] : List (GeoRaster α))
    match datasets with
    | [] => .error ("Tile dataset list is empty after filtering missing data")
    | d0 :: rest =>
        let merged := mergeFirst fill d0 rest
        let mosaicCrs := if d0.crs = "" then ("EPSG:4326") else d0.crs
        let minX := merged.transform.c
        let maxY := merged.transform.f
        let maxX := merged.transform.c + (merged.w : ℚ) * merged.transform.a
        let minY := merged.transform.f + (merged.h : ℚ) * merged.transform.e
        .ok ⟨merged, mosaicCrs,
             [(minX, minY), (maxX, minY), (maxX, maxY), (minX, maxY), (minX, minY)]⟩

end Mosaic

namespace PatchInference

/-- Patch edge length used by the inference subprocess
(`patch_size = 256`). -/
def patchSize : ℕ := 256

/-- Overlap fraction (`overlap = 0.5`). -/
def overlapFrac : ℚ := 1/2

/-- Sliding stride `step = int(patch_size * (1 - overlap))`; the Python
`int()` truncates the (non-negative) product. -/
def stepSize : ℕ := (Int.floor ((patchSize : ℚ) * (1 - overlapFrac))).toNat

/-- Ceiling division `math.ceil(H / step)` over exact rationals. -/
def ceilDivQ (H : ℕ) : ℕ := (Int.ceil ((H : ℚ) / (stepSize : ℚ))).toNat

/-- Bottom padding `pad_H = ceil(H / step) * step + patch_size - H`. -/
def padAmount (H : ℕ) : ℕ := ceilDivQ H * stepSize + patchSize - H

/-- Padded edge length `H + pad_H`. -/
def paddedLen (H : ℕ) : ℕ := H + padAmount H

/-- Number of window start positions of
`range(0, padded - patch_size + 1, step)` along one axis. -/
def numWindows (H : ℕ) : ℕ := (paddedLen H - patchSize) / stepSize + 1

/-- Embedding of `create_gaussian_weight_map(size)[y, x]` for
`size = patch_size` (lines 225–235 of `ml_inference_subprocess.py`):
`clip(1 - dist_from_center / max_dist, 0.1, 1.0)` with
`dist_from_center = sqrt((x - center)^2 + (y - center)^2)`,
`center = size // 2` and `max_dist = sqrt(2 * center^2)`.
`np.clip(v, lo, hi)` is `min hi (max lo v)`. -/
noncomputable def patchWeight (y x : ℕ) : ℝ :=
  let center : ℕ := patchSize / 2
  let distFromCenter : ℝ :=
    Real.sqrt (((x : ℝ) - (center : ℝ)) ^ 2 + ((y : ℝ) - (center : ℝ)) ^ 2)
  let maxDist : ℝ := Real.sqrt (2 * (center : ℝ) ^ 2)
  min 1 (max (1/10) (1 - distFromCenter / maxDist))

/-- Value of `weight_canvas` at pixel `(i, j)` after the double sliding
loop of `main` has accumulated `patch_weight` over every window
position (lines 247–293): the sum, over all window start pairs
`(a*step, b*step)`, of the weight-mask entry at the pixel's offset
inside the window when the window covers the pixel.  Batching only
groups additions, so the accumulated value is this sum. -/
noncomputable def weightCanvas (H W i j : ℕ) : ℝ :=
  ∑ a ∈ Finset.range (numWindows H), ∑ b ∈ Finset.range (numWindows W),
    if a * stepSize ≤ i ∧ i < a * stepSize + patchSize ∧
       b * stepSize ≤ j ∧ j < b * stepSize + patchSize
    then patchWeight (i - a * stepSize) (j - b * stepSize)
    else 0

end PatchInference

namespace Postprocess

/-- The 2-D probability surface handed to
`process_prediction_to_polygons`: dimensions and per-pixel value. -/
structure ProbMap where
  h : ℕ
  w : ℕ
  val : ℕ → ℕ → ℚ

/-- A binary mask over the pixel grid (values `0`/`1`). -/
abbrev Mask : Type := ℕ → ℕ → ℕ

/-- One OpenCV contour: the integer pixel points of shape `(N, 1, 2)`,
already squeezed to a point list. -/
abbrev Contour : Type := List (ℤ × ℤ)

/-- The shapely polygon surviving step 7 of the pipeline, as consumed
by the feature builder: its geometry rings (`mapping(poly)`), area,
centroid (absent when the centroid computation failed) and bounds
`(minx, miny, maxx, maxy)`. -/
structure PolyOut where
  exteriorRing : List (ℚ × ℚ)
  interiorRings : List (List (ℚ × ℚ))
  area : ℚ
  centroid : Option (ℚ × ℚ)
  bounds : ℚ × ℚ × ℚ × ℚ
deriving DecidableEq

/-- The content hashed for `persistent_id`: the canonical JSON of
`{tile, centroid rounded to 6 decimals, bounds rounded to 6 decimals}`
(`json.dumps(..., sort_keys=True)`). -/
structure Signature where
  tile : String
  centroid : Option ℚ × Option ℚ
  bounds : List ℚ
deriving DecidableEq

/-- `prob_8bit = (prob_map * 255).astype(np.uint8)`: truncation of the
scaled value with the 8-bit wrap-around of the unsigned cast (for a
surface in `[0, 1]` this is simply `⌊p * 255⌋`). -/
def prob8bit (pm : ProbMap) (i j : ℕ) : ℕ :=
  (Int.floor (pm.val i j * 255)).toNat % 256

/-- External library capabilities used by
`process_prediction_to_polygons`, each a deterministic function:

* `otsuThreshold` — the cutoff chosen by
  `cv2.threshold(prob_8bit, 0, 1, THRESH_BINARY + THRESH_OTSU)` on the
  8-bit image;
* `morphOpen` — `cv2.morphologyEx(bin_mask, MORPH_OPEN, kernel)` with
  the elliptical structuring element of the given size;
* `findContours` — `cv2.findContours(..., RETR_EXTERNAL,
  CHAIN_APPROX_NONE)`;
* `contourArea` — `cv2.contourArea`;
* `fillRegion` — membership in the filled contour drawn by
  `cv2.drawContours(..., thickness=FILLED)`;
* `polygonize` — the shapely steps applied to one closed coordinate
  ring: `Polygon(...)`, the `make_valid` repair keeping the largest
  polygon, hole removal when `keep_holes` is false, and the skip of
  empty / zero-area / non-polygon results (`none` when the contour is
  discarded);
* `sha1hex12` — the first 12 hex characters of the SHA-1 of the
  canonical JSON of a signature payload. -/
structure ExternalOps where
  otsuThreshold : (ℕ → ℕ → ℕ) → ℕ → ℕ → ℚ
  morphOpen : ℕ → Mask → Mask
  findContours : Mask → List Contour
  contourArea : Contour → ℚ
  fillRegion : Contour → ℕ → ℕ → Bool
  polygonize : List (ℚ × ℚ) → Bool → Option PolyOut
  sha1hex12 : Signature → String

/-- Python's `round(q, d)` used on the float payloads, modelled as
rounding at `d` decimal digits (the tie-breaking rule at exact
half-way points is immaterial to the claims). -/
def roundTo (d : ℕ) (q : ℚ) : ℚ := ((round (q * 10 ^ d) : ℤ) : ℚ) / 10 ^ d

/-- Python's `int()` conversion: truncation toward zero. -/
def intTrunc (q : ℚ) : ℤ := if q < 0 then Int.ceil q else Int.floor q

/-- The binary mask `(prob_map > t).astype(np.uint8)`. -/
def maskGT (pm : ProbMap) (t : ℚ) : Mask :=
  fun i j => if t < pm.val i j then 1 else 0

/-- The binary mask produced by `cv2.threshold` with `THRESH_BINARY`
at the Otsu cutoff: `1` where the 8-bit pixel exceeds the cutoff. -/
def otsuBinMask (pm : ProbMap) (otsu : ℚ) : Mask :=
  fun i j => if otsu < ((prob8bit pm i j : ℕ) : ℚ) then 1 else 0

/-- The safety floor `MINIMUM_THRESHOLD = 0.30`. -/
def minimumThreshold : ℚ := 3/10

/-- Step 1 of `process_prediction_to_polygons` (lines 105–136): the
pair `(adaptive_thresh, bin_mask)`.  With adaptive thresholding the
Otsu cutoff (divided by 255) is used unless it falls below the safety
floor, in which case the mask is recomputed as `prob_map > 0.30`;
otherwise the fixed threshold binarizes directly. -/
def thresholdStep (ops : ExternalOps) (pm : ProbMap) (threshold : ℚ)
    (use_adaptive_threshold : Bool) : ℚ × Mask :=
  if use_adaptive_threshold then
    let otsu := ops.otsuThreshold (prob8bit pm) pm.h pm.w
    let adaptiveThresh := otsu / 255
    if adaptiveThresh < minimumThreshold then
      (minimumThreshold, maskGT pm minimumThreshold)
    else (adaptiveThresh, otsuBinMask pm otsu)
  else (threshold, maskGT pm threshold)

/-- `bin_mask.sum()` over the surface's pixel grid. -/
def maskSum (pm : ProbMap) (m : Mask) : ℕ :=
  ∑ i ∈ Finset.range pm.h, ∑ j ∈ Finset.range pm.w, m i j

/-- The Python test `crs and "4326" in crs` (`None` and the empty
string are falsy). -/
def crsHas4326 (crs : Option String) : Bool :=
  match crs with
  | some s => decide (1 < (s.splitOn ("4326")).length)
  | none => false

/-- `np.mean(prob_map[mask_region == 1])`: the mean of the surface over
the filled contour region (an empty region, unreachable for a real
contour, yields `0` by the rational `0`-division convention). -/
def regionMean (pm : ProbMap) (inRegion : ℕ → ℕ → Bool) : ℚ :=
  let cells := ((Finset.range pm.h) ×ˢ (Finset.range pm.w)).filter
    (fun p => inRegion p.1 p.2)
  (∑ p ∈ cells, pm.val p.1 p.2) / (cells.card : ℚ)

/-- One entry of the `contour_data` list built by the filtering loop
(lines 216–252). -/
structure ContourData where
  contour : Contour
  area_px : ℚ
  area_m2 : Option ℚ
  avg_confidence : ℚ
deriving DecidableEq

/-- Step 4 (lines 208–252): walk the contours in order, dropping those
below the pixel-area floor, then (when a pixel size is available) those
below the square-meter floor — degree-based CRS areas are scaled by
`111000²` — and record average confidence for each survivor.  Returns
`(contour_data, filtered_by_pixels, filtered_by_area)`. -/
def filterContours (ops : ExternalOps) (pm : ProbMap) (crs : Option String)
    (min_area_pixels : ℕ) (min_area_meters : ℚ) (pixelSizeArea : Option ℚ) :
    List Contour → List ContourData × ℕ × ℕ
  | [] => ([], 0, 0)
  | c :: rest =>
      let r := filterContours ops pm crs min_area_pixels min_area_meters
        pixelSizeArea rest
      let areaPx := ops.contourArea c
      if areaPx < (min_area_pixels : ℚ) then (r.1, r.2.1 + 1, r.2.2)
      else
        match pixelSizeArea with
        | some psa =>
            let areaM2 := if crsHas4326 crs then areaPx * psa * (111000 : ℚ) ^ 2
                          else areaPx * psa
            if areaM2 < min_area_meters then (r.1, r.2.1, r.2.2 + 1)
            else (⟨c, areaPx, some areaM2, regionMean pm (ops.fillRegion c)⟩ :: r.1,
                  r.2.1, r.2.2)
        | none =>
            (⟨c, areaPx, none, regionMean pm (ops.fillRegion c)⟩ :: r.1,
             r.2.1, r.2.2)

/-- Step 5 (line 279):
`contour_data.sort(key=lambda x: x['area_px'], reverse=True)` —
Python's stable sort in descending area order, modelled by the stable
merge sort under the matching total preorder. -/
def sortByAreaDesc (l : List ContourData) : List ContourData :=
  l.mergeSort (fun x y => decide (y.area_px ≤ x.area_px))

/-- One entry of `raw_features` (lines 284–390). -/
structure RawFeature where
  geometry : PolyOut
  area_px : ℚ
  area_m2 : Option ℚ
  avg_confidence : ℚ
  label_position : Option (ℚ × ℚ)
  pixel_coords : List (ℚ × ℚ)
  bounds : ℚ × ℚ × ℚ × ℚ
  centroid_lon : Option ℚ
  centroid_lat : Option ℚ
deriving DecidableEq

/-- Close a coordinate ring when its first and last points differ
(`if coords and coords[0] != coords[-1]: coords.append(coords[0])`). -/
def closeRing (l : List (ℚ × ℚ)) : List (ℚ × ℚ) :=
  match l with
  | [] => []
  | p :: _ => if l.getLast? ≠ some p then l ++ [p] else l

/-- The closed pixel-coordinate ring stored for canvas overlay
rendering (`pixel_coords`). -/
def pixelRing (c : Contour) : List (ℚ × ℚ) :=
  closeRing (c.map fun p => ((p.1 : ℚ), (p.2 : ℚ)))

/-- The closed georeferenced ring: each contour point pushed through
the affine transform (`geo_x, geo_y = transform * (x, y)`). -/
def geoRing (tr : Affine) (c : Contour) : List (ℚ × ℚ) :=
  closeRing (c.map fun p => tr.apply ((p.1 : ℚ), (p.2 : ℚ)))

/-- Steps 6–7 for one sorted contour entry (lines 286–390): skip the
single-point contour (whose squeeze is one-dimensional), build the
pixel and geographic rings, skip rings shorter than 4 points, run the
shapely construction/repair, and package the raw feature. -/
def buildRawFeature (ops : ExternalOps) (tr : Affine) (keep_holes : Bool)
    (d : ContourData) : Option RawFeature :=
  if d.contour.length = 1 then none
  else
    let pcoords := pixelRing d.contour
    let gcoords := geoRing tr d.contour
    if gcoords.length < 4 then none
    else
      match ops.polygonize gcoords keep_holes with
      | none => none
      | some poly =>
          some ⟨poly, d.area_px, d.area_m2, roundTo 3 d.avg_confidence,
                poly.centroid, pcoords, poly.bounds,
                poly.centroid.map Prod.fst, poly.centroid.map Prod.snd⟩

/-- Filtering statistics recorded in the metadata. -/
structure FilterStats where
  total_detected : ℕ
  filtered_by_pixels : ℕ
  filtered_by_area : ℕ
  kept : ℕ
deriving DecidableEq

/-- The `processing_params` metadata block. -/
structure ProcParams where
  morphology_kernel : ℕ
  min_area_pixels : ℕ
  min_area_meters : ℚ
  simplify_tolerance : ℚ
  adaptive_threshold : Bool
deriving DecidableEq

/-- The `metadata` dictionary of the result (fields absent on the
early-return paths are `none`). -/
structure Meta where
  block_count : ℕ
  total_area_m2 : ℚ
  avg_confidence : Option ℚ
  threshold_used : ℚ
  processing_params : Option ProcParams
  filtering_stats : Option FilterStats
deriving DecidableEq

/-- Per-feature `properties` of the emitted GeoJSON. -/
structure Props where
  block_id : String
  block_index : ℕ
  name : String
  tile_id : String
  area_px : ℤ
  avg_confidence : ℚ
  label_position : Option (ℚ × ℚ)
  pixel_coords : List (ℚ × ℚ)
  bbox : ℚ × ℚ × ℚ × ℚ
  persistent_id : String
  centroid_lon : Option ℚ
  centroid_lat : Option ℚ
  area_m2 : Option ℚ
  crs : Option String
  analysis_id : Option String
deriving DecidableEq

/-- One emitted GeoJSON feature. -/
structure Feature where
  geometry : PolyOut
  props : Props
deriving DecidableEq

/-- Fixed visualization parameters (lines 500–509). -/
structure Viz where
  overlay_opacity : ℚ
  fill_color : String
  stroke_color : String
  stroke_width : ℕ
  label_color : String
  label_font_size : ℕ
  label_outline_color : String
  label_outline_width : ℕ
deriving DecidableEq

/-- The constant visualization block of every fully-built result. -/
def vizParams : Viz :=
  ⟨1/4, "#FFD700", "#FFA500", 1, "#000000", 16, "#FFFFFF", 2⟩

/-- The returned feature collection. -/
structure ProcResult where
  features : List Feature
  metadata : Meta
  visualization : Option Viz
deriving DecidableEq

/-- The `persistent_id` of one block (lines 421–429): the tile label
(or `"global"`), the centroid rounded to 6 decimals and the bounds
rounded to 6 decimals are hashed; the prefix is prepended when
non-empty. -/
def persistentIdOf (ops : ExternalOps) (persistentPref : String)
    (entry : RawFeature) : String :=
  let sig : Signature :=
    ⟨persistentPref,
     (entry.centroid_lon.map (roundTo 6), entry.centroid_lat.map (roundTo 6)),
     [roundTo 6 entry.bounds.1, roundTo 6 entry.bounds.2.1,
      roundTo 6 entry.bounds.2.2.1, roundTo 6 entry.bounds.2.2.2]⟩
  let hash := ops.sha1hex12 sig
  if persistentPref ≠ "" then persistentPref ++ ("-") ++ hash else hash

/-- Step 8 for one enumerated raw feature (lines 416–473): identifiers,
labels and properties of the emitted feature with 1-based index
`idx`. -/
def buildFeature (ops : ExternalOps) (crsProp analysisProp : Option String)
    (tileLabel analysisLabel persistentPref : String)
    (idxEntry : ℕ × RawFeature) : Feature :=
  let idx := idxEntry.1
  let entry := idxEntry.2
  let blockCode := if tileLabel ≠ "" then
      ("T") ++ tileLabel ++ ("B") ++ toString idx
    else ("B") ++ toString idx
  let blockName := if tileLabel ≠ "" then blockCode
    else ("Block ") ++ toString idx
  { geometry := entry.geometry
    props :=
      { block_id := analysisLabel ++ blockCode
        block_index := idx
        name := blockName
        tile_id := tileLabel
        area_px := intTrunc entry.area_px
        avg_confidence := entry.avg_confidence
        label_position := entry.label_position
        pixel_coords := entry.pixel_coords
        bbox := entry.bounds
        persistent_id := persistentIdOf ops persistentPref entry
        centroid_lon := entry.centroid_lon
        centroid_lat := entry.centroid_lat
        area_m2 := entry.area_m2.map (roundTo 2)
        crs := crsProp
        analysis_id := analysisProp } }

/-- Python truthiness of an optional string (used for the
`if crs:` / `if analysis_id:` property guards). -/
def strTruthy (o : Option String) : Option String :=
  match o with
  | some s => if s = "" then none else some s
  | none => none

/-- Embedding of `process_prediction_to_polygons`
(`app/utils/postprocess.py`, lines 23–517): thresholding, the
empty-mask early return, morphological opening, contour extraction,
multi-level area filtering, area-descending sort, vectorization with
shapely repair, 1-based numbering with persistent identifiers, and the
aggregate metadata.  `simplify_tol` is accepted and ignored, as in the
code (no simplification is performed). -/
def process (ops : ExternalOps) (pm : ProbMap) (transform : Option Affine)
    (crs : Option String) (threshold : ℚ) (min_area_pixels : ℕ)
    (min_area_meters : ℚ) (morphology_kernel : ℕ) (simplify_tol : ℚ)
    (keep_holes : Bool) (use_adaptive_threshold : Bool)
    (tile_id : Option String) (analysis_id : Option String) : ProcResult :=
  -- If no transform provided, use identity (pixel coordinates)
  let tr := transform.getD Affine.identity
  let tres := thresholdStep ops pm threshold use_adaptive_threshold
  let adaptiveThresh := tres.1
  let binMask := tres.2
  if maskSum pm binMask = 0 then
    ⟨[], ⟨0, 0, none, adaptiveThresh, none, none⟩, none⟩
  else
    let cleanedMask := if 1 < morphology_kernel then
        ops.morphOpen morphology_kernel binMask
      else binMask
    let contours := ops.findContours cleanedMask
    if contours.isEmpty then
      ⟨[], ⟨0, 0, none, adaptiveThresh, none, none⟩, none⟩
    else
      let pixelSizeArea : Option ℚ :=
        if tr ≠ Affine.identity then some |tr.a * tr.e| else none
      let fres := filterContours ops pm crs min_area_pixels min_area_meters
        pixelSizeArea contours
      let contourData := fres.1
      let filteredByPixels := fres.2.1
      let filteredByArea := fres.2.2
      let totalContours := contours.length
      if contourData.isEmpty then
        ⟨[], ⟨0, 0, none, adaptiveThresh, none,
              some ⟨totalContours, filteredByPixels, filteredByArea, 0⟩⟩, none⟩
      else
        let sorted := sortByAreaDesc contourData
        let rawFeatures := sorted.filterMap (buildRawFeature ops tr keep_holes)
        if rawFeatures.isEmpty then
          ⟨[], ⟨0, 0, none, adaptiveThresh, none,
                some ⟨totalContours, filteredByPixels, filteredByArea, 0⟩⟩, none⟩
        else
          let tileLabel := match tile_id with
            | some s => if s = "" then "" else s
            | none => ""
          let analysisLabel := match analysis_id with
            | some s => if s = "" then "" else s.take 8 ++ ("-")
            | none => ""
          let persistentPref := if tileLabel = "" then ("global") else tileLabel
          let features := (rawFeatures.enumFrom 1).map
            (buildFeature ops (strTruthy crs) (strTruthy analysis_id)
              tileLabel analysisLabel persistentPref)
          let totalAreaM2 := (rawFeatures.filterMap RawFeature.area_m2).sum
          let totalConfidence := (rawFeatures.map RawFeature.avg_confidence).sum
          ⟨features,
           ⟨features.length, roundTo 2 totalAreaM2,
            some (if features.length ≠ 0 then
                roundTo 3 (totalConfidence / (features.length : ℚ))
              else 0),
            adaptiveThresh,
            some ⟨morphology_kernel, min_area_pixels, min_area_meters,
                  simplify_tol, use_adaptive_threshold⟩,
            some ⟨totalContours, filteredByPixels, filteredByArea,
                  features.length⟩⟩,
           some vizParams⟩

/-- The keyword defaults of the `process_prediction_to_polygons`
signature (lines 23–36 of `postprocess.py`) together with the explicit
parameter set passed by the inference subprocess. -/
structure VectorizeConfig where
  threshold : ℚ
  min_area_pixels : ℕ
  min_area_meters : ℚ
  morphology_kernel : ℕ
  simplify_tol : ℚ
  keep_holes : Bool
  use_adaptive_threshold : Bool
deriving DecidableEq

/-- The Python keyword defaults of `process_prediction_to_polygons`:
`threshold=0.5`, `min_area_pixels=1000`, `min_area_meters=1000.0`,
`morphology_kernel=5`, `simplify_tol=1.5`, `keep_holes=False`,
`use_adaptive_threshold=True`. -/
def postprocessDefaults : VectorizeConfig :=
  ⟨1/2, 1000, 1000, 5, 3/2, false, true⟩

/-- The explicit configuration built in `main` of
`ml_inference_subprocess.py` (lines 350–378) and passed to
`process_prediction_to_polygons`: `threshold=0.55`,
`min_area_pixels=1000`, `min_area_meters=1000.0`,
`morphology_kernel=2`, `simplify_tol=0.0`, `keep_holes=False`,
`use_adaptive_threshold=False`. -/
def subprocessVectorizeArgs : VectorizeConfig :=
  ⟨11/20, 1000, 1000, 2, 0, false, false⟩

/-- Invocation of the vectorizer from a configuration record. -/
def processWithConfig (ops : ExternalOps) (pm : ProbMap)
    (transform : Option Affine) (crs : Option String) (cfg : VectorizeConfig)
    (tile_id analysis_id : Option String) : ProcResult :=
  process ops pm transform crs cfg.threshold cfg.min_area_pixels
    cfg.min_area_meters cfg.morphology_kernel cfg.simplify_tol cfg.keep_holes
    cfg.use_adaptive_threshold tile_id analysis_id

end Postprocess

namespace Fixtures

/-- A concrete oracle for evaluating the embedding on closed inputs:
every external capability returns a fixed trivial value. -/
def trivialOps : Postprocess.ExternalOps :=
  { otsuThreshold := fun _ _ _ => 0
    morphOpen := fun _ m => m
    findContours := fun _ => []
    contourArea := fun _ => 0
    fillRegion := fun _ _ _ => true
    polygonize := fun _ _ => none
    sha1hex12 := fun _ => "" }

/-- A concrete all-zero 1×1 probability surface. -/
def probMapZero : Postprocess.ProbMap := ⟨1, 1, fun _ _ => 0⟩

/-- A concrete 1×1 tile raster with constant pixel value 5. -/
def tileDataA : Mosaic.TileData ℚ := ⟨1, 1, fun _ _ => 5⟩

/-- A concrete 1×1 tile raster with constant pixel value 7 (same
footprint as `tileDataA`, different content). -/
def tileDataB : Mosaic.TileData ℚ := ⟨1, 1, fun _ _ => 7⟩

/-- A north-up unit-resolution transform anchored at the origin. -/
def unitTransform : Affine := ⟨1, 0, 0, 0, -1, 0⟩

/-- A concrete 1×1 georeferenced raster with constant pixel value 5. -/
def rasterA : Mosaic.GeoRaster ℚ :=
  ⟨1, 1, unitTransform, "EPSG:32643", fun _ _ => 5⟩

end Fixtures

section Theorems

open Postprocess Mosaic TileGrid PatchInference Fixtures

/-- C9 counterexample: the keyword defaults of
`process_prediction_to_polygons` are `morphology_kernel = 5`,
`threshold = 0.5` and adaptive thresholding enabled — not the
`morphology_kernel = 2`, fixed `threshold = 0.55` stated by the
claim. -/
theorem c9_signature_defaults_refute :
    postprocessDefaults.morphology_kernel = 5 ∧
    postprocessDefaults.threshold = 1/2 ∧
    postprocessDefaults.use_adaptive_threshold = true := by
  exact ⟨rfl, rfl, rfl⟩

/-- C9 (amended): the vectorizer signature's own defaults are
`min_area_pixels = 1000`, `min_area_meters = 1000.0`,
`morphology_kernel = 5`, `threshold = 0.5` with adaptive thresholding
enabled by default; the values the claim lists — `morphology_kernel =
2`, fixed `threshold = 0.55`, adaptive disabled — are the explicit
parameters the inference subprocess passes when it invokes the
vectorizer. -/
theorem vectorizer_configuration_defaults :
    postprocessDefaults.min_area_pixels = 1000 ∧
    postprocessDefaults.min_area_meters = 1000 ∧
    postprocessDefaults.morphology_kernel = 5 ∧
    postprocessDefaults.threshold = 1/2 ∧
    postprocessDefaults.use_adaptive_threshold = true ∧
    subprocessVectorizeArgs.min_area_pixels = 1000 ∧
    subprocessVectorizeArgs.min_area_meters = 1000 ∧
    subprocessVectorizeArgs.morphology_kernel = 2 ∧
    subprocessVectorizeArgs.threshold = 11/20 ∧
    subprocessVectorizeArgs.use_adaptive_threshold = false := by
  refine ⟨rfl, rfl, rfl, rfl, rfl, rfl, rfl, rfl, rfl, rfl⟩

/-- C3: vectorization is deterministic — two invocations of the
embedded `process_prediction_to_polygons` on identical probability
surface, transform, CRS and parameters (with the same deterministic
external capabilities) produce identical results, hence the same
`persistent_id`s, feature ordering and polygon vertex sequences.  The
embedding is a pure function: the code consults no randomness or
ambient state, and its only external calls (OpenCV, shapely, SHA-1)
are deterministic functions of their arguments. -/
theorem vectorize_deterministic (ops : ExternalOps) (pm pm' : ProbMap)
    (tr tr' : Option Affine) (crs crs' : Option String) (θ θ' : ℚ)
    (mpx mpx' : ℕ) (mm mm' : ℚ) (mk mk' : ℕ) (st st' : ℚ)
    (kh kh' ad ad' : Bool) (tid tid' aid aid' : Option String)
    (hpm : pm = pm') (htr : tr = tr') (hcrs : crs = crs') (hθ : θ = θ')
    (hmpx : mpx = mpx') (hmm : mm = mm') (hmk : mk = mk') (hst : st = st')
    (hkh : kh = kh') (had : ad = ad') (htid : tid = tid')
    (haid : aid = aid') :
    process ops pm tr crs θ mpx mm mk st kh ad tid aid =
      process ops pm' tr' crs' θ' mpx' mm' mk' st' kh' ad' tid' aid' := by
  subst hpm htr hcrs hθ hmpx hmm hmk hst hkh had htid haid
  rfl

/-- Witness for `vectorize_deterministic` at a concrete surface and
parameter set. -/
theorem vectorize_deterministic_witness :
    process trivialOps probMapZero none none (11/20) 1000 1000 2 0
        false false none none =
      process trivialOps probMapZero none none (11/20) 1000 1000 2 0
        false false none none :=
  vectorize_deterministic trivialOps probMapZero probMapZero none none
    none none (11/20) (11/20) 1000 1000 1000 1000 2 2 0 0 false false
    false false none none none none rfl rfl rfl rfl rfl rfl rfl rfl rfl
    rfl rfl rfl

/-- C8: whenever the thresholded binary mask sums to zero, the
vectorizer returns the empty feature collection with
`block_count = 0` and `total_area_m2 = 0` (and the threshold it used),
instead of failing. -/
theorem vectorizer_empty_mask_empty_collection (ops : ExternalOps)
    (pm : ProbMap) (transform : Option Affine) (crs : Option String)
    (threshold : ℚ) (mpx : ℕ) (mm : ℚ) (mk : ℕ) (st : ℚ) (kh ad : Bool)
    (tid aid : Option String)
    (h : maskSum pm (thresholdStep ops pm threshold ad).2 = 0) :
    process ops pm transform crs threshold mpx mm mk st kh ad tid aid =
      ⟨[], ⟨0, 0, none, (thresholdStep ops pm threshold ad).1, none, none⟩,
       none⟩ := by
  unfold process
  simp only [h, if_pos]

/-- Witness for `vectorizer_empty_mask_empty_collection`: the all-zero
1×1 surface with the fixed threshold `0` has an all-zero binary mask
and yields the empty collection. -/
theorem vectorizer_empty_mask_empty_collection_witness :
    maskSum probMapZero
        (thresholdStep trivialOps probMapZero 0 false).2 = 0 ∧
    process trivialOps probMapZero none none 0 1000 1000 2 0 false false
        none none =
      ⟨[], ⟨0, 0, none, (thresholdStep trivialOps probMapZero 0 false).1,
            none, none⟩, none⟩ :=
  ⟨by decide,
   vectorizer_empty_mask_empty_collection trivialOps probMapZero none
     none 0 1000 1000 2 0 false false none none (by decide)⟩

set_option maxHeartbeats 1000000 in
/-- Every return path of the vectorizer reports the threshold chosen by
the thresholding step as `threshold_used`. -/
theorem process_threshold_used (ops : ExternalOps) (pm : ProbMap)
    (transform : Option Affine) (crs : Option String) (θ : ℚ) (mpx : ℕ)
    (mm : ℚ) (mk : ℕ) (st : ℚ) (kh ad : Bool) (tid aid : Option String) :
    (process ops pm transform crs θ mpx mm mk st kh ad
        tid aid).metadata.threshold_used = (thresholdStep ops pm θ ad).1 := by
  unfold process
  dsimp only
  split_ifs <;> rfl

/-- C6: with the adaptive policy the applied threshold is
`max(0.30, otsu/255)` — never below the `0.30` safety floor; when the
Otsu cutoff falls below the floor the binary mask is recomputed as
`prob_map > 0.30`, and otherwise the Otsu mask at cutoff `otsu` is
kept, with `threshold_used = otsu/255`. -/
theorem adaptive_threshold_floor (ops : ExternalOps) (pm : ProbMap)
    (transform : Option Affine) (crs : Option String) (θ : ℚ) (mpx : ℕ)
    (mm : ℚ) (mk : ℕ) (st : ℚ) (kh : Bool) (tid aid : Option String) :
    minimumThreshold ≤ (process ops pm transform crs θ mpx mm mk st kh
        true tid aid).metadata.threshold_used ∧
    (process ops pm transform crs θ mpx mm mk st kh true
        tid aid).metadata.threshold_used =
      max minimumThreshold (ops.otsuThreshold (prob8bit pm) pm.h pm.w / 255) ∧
    (thresholdStep ops pm θ true).2 =
      (if ops.otsuThreshold (prob8bit pm) pm.h pm.w / 255 < minimumThreshold
       then maskGT pm minimumThreshold
       else otsuBinMask pm (ops.otsuThreshold (prob8bit pm) pm.h pm.w)) := by
  have hused := process_threshold_used ops pm transform crs θ mpx mm mk st kh
    true tid aid
  have h1 : (thresholdStep ops pm θ true).1 =
      max minimumThreshold (ops.otsuThreshold (prob8bit pm) pm.h pm.w / 255) := by
    simp only [thresholdStep, if_true, eq_self_iff_true]
    split_ifs with h
    · exact (max_eq_left h.le).symm
    · exact (max_eq_right (not_lt.mp h)).symm
  have h2 : (thresholdStep ops pm θ true).2 =
      (if ops.otsuThreshold (prob8bit pm) pm.h pm.w / 255 < minimumThreshold
       then maskGT pm minimumThreshold
       else otsuBinMask pm (ops.otsuThreshold (prob8bit pm) pm.h pm.w)) := by
    simp only [thresholdStep, if_true, eq_self_iff_true]
    split_ifs <;> rfl
  refine ⟨?_, by rw [hused, h1], h2⟩
  rw [hused, h1]
  exact le_max_left _ _

/-- A raw feature keeps the pixel area of the contour entry it was
built from. -/
theorem buildRawFeature_area_px (ops : ExternalOps) (tr : Affine)
    (kh : Bool) (d : ContourData) (rf : RawFeature)
    (h : buildRawFeature ops tr kh d = some rf) : rf.area_px = d.area_px := by
  unfold buildRawFeature at h
  dsimp only at h
  split_ifs at h
  cases hp : ops.polygonize (geoRing tr d.contour) kh with
  | none => rw [hp] at h; exact Option.noConfusion h
  | some poly =>
      rw [hp] at h
      injection h with h'
      rw [← h']

/-- The Python stable descending sort leaves `contour_data` pairwise
ordered by non-increasing pixel area. -/
theorem sortByAreaDesc_pairwise (l : List ContourData) :
    (sortByAreaDesc l).Pairwise (fun x y => y.area_px ≤ x.area_px) := by
  have htrans : ∀ a b c : ContourData,
      decide (b.area_px ≤ a.area_px) = true →
      decide (c.area_px ≤ b.area_px) = true →
      decide (c.area_px ≤ a.area_px) = true := by
    intro a b c hab hbc
    rw [decide_eq_true_iff] at *
    exact le_trans hbc hab
  have htotal : ∀ a b : ContourData,
      (decide (b.area_px ≤ a.area_px) || decide (a.area_px ≤ b.area_px)) = true := by
    intro a b
    rcases le_total b.area_px a.area_px with h | h
    · simp [h]
    · simp [h]
  have hs := List.sorted_mergeSort htrans htotal l
  exact hs.imp fun h => decide_eq_true_iff.mp h

/-- The surviving raw features inherit the non-increasing area order of
the sorted contour entries. -/
theorem rawFeatures_pairwise (ops : ExternalOps) (tr : Affine) (kh : Bool)
    (l : List ContourData) :
    ((sortByAreaDesc l).filterMap (buildRawFeature ops tr kh)).Pairwise
      (fun u v => v.area_px ≤ u.area_px) := by
  refine (sortByAreaDesc_pairwise l).filterMap (buildRawFeature ops tr kh) ?_
  intro a a' r b hb b' hb'
  rw [buildRawFeature_area_px ops tr kh a b (Option.mem_def.mp hb),
      buildRawFeature_area_px ops tr kh a' b' (Option.mem_def.mp hb')]
  exact r

/-- Python's `int()` truncation toward zero is monotone. -/
theorem intTrunc_mono {a b : ℚ} (h : a ≤ b) : intTrunc a ≤ intTrunc b := by
  unfold intTrunc
  split_ifs with ha hb hb
  · exact Int.ceil_le_ceil h
  · refine le_trans (Int.ceil_le.mpr ?_) (Int.floor_nonneg.mpr (not_lt.mp hb))
    push_cast
    exact ha.le
  · exact absurd (le_trans (not_lt.mp ha) h) (not_le.mpr hb)
  · exact Int.floor_le_floor h

/-- The feature list built from an area-sorted raw-feature list is
area-sorted and indexed `1, 2, …` in order. -/
theorem features_block_props (ops : ExternalOps) (crsP aP : Option String)
    (tl al pp : String) (raw : List RawFeature)
    (hsorted : raw.Pairwise (fun u v => v.area_px ≤ u.area_px)) :
    (((raw.enumFrom 1).map (buildFeature ops crsP aP tl al pp)).map
        (fun f => f.props.area_px)).Pairwise (fun a b => b ≤ a) ∧
    ((raw.enumFrom 1).map (buildFeature ops crsP aP tl al pp)).map
        (fun f => f.props.block_index) =
      List.range' 1 ((raw.enumFrom 1).map
        (buildFeature ops crsP aP tl al pp)).length := by
  constructor
  · rw [List.map_map]
    have heq : ((fun f : Feature => f.props.area_px) ∘
        buildFeature ops crsP aP tl al pp) =
        ((fun e : RawFeature => intTrunc e.area_px) ∘ Prod.snd) := rfl
    rw [heq, ← List.map_map, List.enumFrom_map_snd]
    exact hsorted.map _ (fun a b hab => intTrunc_mono hab)
  · rw [List.map_map]
    have heq : ((fun f : Feature => f.props.block_index) ∘
        buildFeature ops crsP aP tl al pp) = (Prod.fst : ℕ × RawFeature → ℕ) := rfl
    rw [heq, List.enumFrom_map_fst, List.length_map]
    congr 1
    induction raw generalizing al with
    | nil => rfl
    | cons x xs ih => simp [List.enumFrom, List.enumFrom_length]

set_option maxHeartbeats 1000000 in
/-- C2: the features emitted by the vectorizer are ordered by pixel
area non-increasingly (for positions `i < j`, feature `i`'s `area_px`
is at least feature `j`'s) and each feature's `block_index` equals its
1-based position in that order. -/
theorem features_area_sorted_and_indexed (ops : ExternalOps) (pm : ProbMap)
    (transform : Option Affine) (crs : Option String) (θ : ℚ) (mpx : ℕ)
    (mm : ℚ) (mk : ℕ) (st : ℚ) (kh ad : Bool) (tid aid : Option String) :
    ((process ops pm transform crs θ mpx mm mk st kh ad tid
        aid).features.map (fun f => f.props.area_px)).Pairwise
      (fun a b => b ≤ a) ∧
    (process ops pm transform crs θ mpx mm mk st kh ad tid
        aid).features.map (fun f => f.props.block_index) =
      List.range' 1 (process ops pm transform crs θ mpx mm mk st kh ad tid
        aid).features.length := by
  unfold process
  dsimp only
  split_ifs <;>
    first
      | exact features_block_props _ _ _ _ _ _ _ (rawFeatures_pairwise _ _ _ _)
      | simp

/-- With no pixel size available (no usable transform), the filtering
loop never rejects a contour by square-meter area. -/
theorem filterContours_none_fa (ops : ExternalOps) (pm : ProbMap)
    (crs : Option String) (mpx : ℕ) (mm : ℚ) (contours : List Contour) :
    (filterContours ops pm crs mpx mm none contours).2.2 = 0 := by
  induction contours with
  | nil => rfl
  | cons c rest ih =>
      unfold filterContours
      dsimp only
      split_ifs with h
      · exact ih
      · exact ih

/-- With no pixel size available, every kept contour entry's `area_m2`
is `None`. -/
theorem filterContours_none_m2 (ops : ExternalOps) (pm : ProbMap)
    (crs : Option String) (mpx : ℕ) (mm : ℚ) (contours : List Contour) :
    ∀ d ∈ (filterContours ops pm crs mpx mm none contours).1,
      d.area_m2 = none := by
  induction contours with
  | nil => intro d hd; cases hd
  | cons c rest ih =>
      unfold filterContours
      dsimp only
      split_ifs with h
      · exact ih
      · intro d hd
        rcases List.mem_cons.mp hd with h' | h'
        · rw [h']
        · exact ih d h'

/-- A raw feature records the contour entry's `area_m2`, the closed
pixel ring, and the polygon the oracle built from the georeferenced
ring. -/
theorem buildRawFeature_fields (ops : ExternalOps) (tr : Affine)
    (kh : Bool) (d : ContourData) (rf : RawFeature)
    (h : buildRawFeature ops tr kh d = some rf) :
    rf.area_m2 = d.area_m2 ∧ rf.pixel_coords = pixelRing d.contour ∧
    ops.polygonize (geoRing tr d.contour) kh = some rf.geometry := by
  unfold buildRawFeature at h
  dsimp only at h
  split_ifs at h
  cases hp : ops.polygonize (geoRing tr d.contour) kh with
  | none => rw [hp] at h; exact Option.noConfusion h
  | some poly =>
      rw [hp] at h
      injection h with h'
      subst h'
      exact ⟨rfl, rfl, by simp [hp]⟩

/-- Under the identity transform the georeferenced ring coincides with
the pixel ring. -/
theorem geoRing_identity (c : Contour) :
    geoRing Affine.identity c = pixelRing c := by
  unfold geoRing pixelRing
  congr 1
  apply List.map_congr_left
  intro p _
  simp [Affine.apply, Affine.identity]

/-- `round(0, d)` is `0`. -/
theorem roundTo_zero (d : ℕ) : roundTo d 0 = 0 := by
  simp [roundTo]

/-- Every raw feature built from entries with `area_m2 = None` under
the identity transform has `area_m2 = None` and a geometry produced by
the shapely oracle from exactly its stored pixel ring. -/
theorem rawFeatures_identity_fields (ops : ExternalOps) (kh : Bool)
    (l : List ContourData) (hm2 : ∀ d ∈ l, d.area_m2 = none) :
    ∀ e ∈ (sortByAreaDesc l).filterMap (buildRawFeature ops Affine.identity kh),
      e.area_m2 = none ∧ ops.polygonize e.pixel_coords kh = some e.geometry := by
  intro e he
  obtain ⟨d, hd, hbe⟩ := List.mem_filterMap.mp he
  have hd' : d ∈ l := List.mem_mergeSort.mp hd
  obtain ⟨h1, h2, h3⟩ := buildRawFeature_fields ops Affine.identity kh d e hbe
  refine ⟨h1.trans (hm2 d hd'), ?_⟩
  rw [geoRing_identity] at h3
  rw [← h2] at h3
  exact h3

/-- Under the identity transform the surviving raw features carry no
square-meter area, so the accumulated `total_area_m2` is `0`. -/
theorem totalArea_identity (ops : ExternalOps) (kh : Bool) (pm : ProbMap)
    (crs : Option String) (mpx : ℕ) (mm : ℚ) (cnts : List Contour) :
    roundTo 2 (List.filterMap RawFeature.area_m2
      ((sortByAreaDesc (filterContours ops pm crs mpx mm none cnts).1).filterMap
        (buildRawFeature ops Affine.identity kh))).sum = 0 := by
  have hraw := rawFeatures_identity_fields ops kh
    (filterContours ops pm crs mpx mm none cnts).1
    (filterContours_none_m2 ops pm crs mpx mm cnts)
  simp [List.filterMap_eq_nil_iff.mpr (fun e he => (hraw e he).1), roundTo_zero]

/-- Under the identity transform every emitted feature lacks the
`area_m2` property and its geometry is the oracle polygon of its own
pixel ring. -/
theorem featuresAll_identity (ops : ExternalOps) (kh : Bool)
    (crsP aP : Option String) (tl al pp : String) (pm : ProbMap)
    (crs : Option String) (mpx : ℕ) (mm : ℚ) (cnts : List Contour) :
    ((List.map (buildFeature ops crsP aP tl al pp)
        (List.enumFrom 1
          ((sortByAreaDesc (filterContours ops pm crs mpx mm none cnts).1).filterMap
            (buildRawFeature ops Affine.identity kh)))).all
      fun f => decide (f.props.area_m2 = none) &&
        decide (ops.polygonize f.props.pixel_coords kh = some f.geometry)) =
      true := by
  rw [List.all_eq_true]
  intro f hf
  obtain ⟨p, hp, rfl⟩ := List.mem_map.mp hf
  have hmem := List.mem_map_of_mem Prod.snd hp
  rw [List.enumFrom_map_snd] at hmem
  have hraw := rawFeatures_identity_fields ops kh
    (filterContours ops pm crs mpx mm none cnts).1
    (filterContours_none_m2 ops pm crs mpx mm cnts)
  obtain ⟨hA, hB⟩ := hraw p.2 hmem
  simp [buildFeature, hA, hB]

set_option maxHeartbeats 2000000 in
/-- C10: when the vectorizer is called with no transform it substitutes
the identity transform, and then the square-meter filter is never
applied (`filtered_by_area` stays `0`), no feature carries an `area_m2`
property, the metadata's `total_area_m2` is the number `0`, and every
emitted feature's geometry is the polygon the shapely oracle builds
from exactly the feature's pixel-contour ring (the georeferenced ring
equals the pixel ring under the identity transform). -/
theorem identity_transform_behavior (ops : ExternalOps) (pm : ProbMap)
    (crs : Option String) (θ : ℚ) (mpx : ℕ) (mm : ℚ) (mk : ℕ) (st : ℚ)
    (kh ad : Bool) (tid aid : Option String) :
    (process ops pm none crs θ mpx mm mk st kh ad tid
        aid).metadata.total_area_m2 = 0 ∧
    ((process ops pm none crs θ mpx mm mk st kh ad tid aid).features.all
      fun f => decide (f.props.area_m2 = none) &&
        decide (ops.polygonize f.props.pixel_coords kh = some f.geometry)) =
      true ∧
    ((process ops pm none crs θ mpx mm mk st kh ad tid
        aid).metadata.filtering_stats.all
      fun s => decide (s.filtered_by_area = 0)) = true := by
  unfold process
  dsimp only [Option.getD]
  rw [if_neg (fun hcon => hcon rfl : ¬(Affine.identity ≠ Affine.identity))]
  split_ifs <;>
    first
      | exact ⟨rfl, rfl, rfl⟩
      | exact ⟨rfl, rfl, by simp [Option.all, filterContours_none_fa]⟩
      | exact ⟨totalArea_identity ops kh pm crs mpx mm _,
               featuresAll_identity ops kh _ _ _ _ _ pm crs mpx mm _,
               by simp [Option.all, filterContours_none_fa]⟩

/-- A step index is emitted by the grid walk precisely when its start
value is still below the loop bound. -/
theorem lt_stepCount_iff {lo hi d : ℚ} (hd : 0 < d) (r : ℕ) :
    r < stepCount lo hi d ↔ lo + (r : ℚ) * d < hi := by
  unfold stepCount
  rw [Int.lt_toNat, Int.lt_ceil]
  push_cast
  rw [lt_div_iff₀ hd]
  constructor <;> intro h <;> linarith

/-- Any point between the walk's start and its bound is covered by some
emitted step interval `[lo + k*d, lo + k*d + d]`. -/
theorem exists_step_cover (lo hi d x : ℚ) (hd : 0 < d) (hlo : lo ≤ x)
    (hhi : x < hi) :
    ∃ k : ℕ, k < stepCount lo hi d ∧ lo + (k : ℚ) * d ≤ x ∧
      x ≤ lo + (k : ℚ) * d + d := by
  have h0 : (0 : ℚ) ≤ (x - lo) / d := div_nonneg (by linarith) hd.le
  have hf0 : 0 ≤ ⌊(x - lo) / d⌋ := Int.floor_nonneg.mpr h0
  have hcast : (((⌊(x - lo) / d⌋).toNat : ℕ) : ℚ) = ((⌊(x - lo) / d⌋ : ℤ) : ℚ) := by
    exact_mod_cast congrArg (fun z : ℤ => (z : ℚ)) (Int.toNat_of_nonneg hf0)
  have hle : ((⌊(x - lo) / d⌋ : ℤ) : ℚ) * d ≤ x - lo :=
    (le_div_iff₀ hd).mp (Int.floor_le _)
  have hlt : x - lo < (((⌊(x - lo) / d⌋ : ℤ) : ℚ) + 1) * d :=
    (div_lt_iff₀ hd).mp (Int.lt_floor_add_one _)
  refine ⟨(⌊(x - lo) / d⌋).toNat, ?_, ?_, ?_⟩
  · rw [lt_stepCount_iff hd, hcast]
    linarith
  · rw [hcast]
    linarith
  · rw [hcast]
    linarith

/-- The tile at grid indices `(r, c)` belongs to the planner's output
whenever both indices are below the loop counts. -/
theorem mkTile_mem_grid (minLon maxLon minLat maxLat : ℚ)
    (resolution tile_size cosCenterLat : ℚ) (r c : ℕ)
    (hr : r < stepCount (minLat - tileDegLat tile_size resolution * (1/10))
      (maxLat + tileDegLat tile_size resolution * (1/10))
      (tileDegLat tile_size resolution))
    (hc : c < stepCount
      (minLon - tileDegLon tile_size resolution cosCenterLat * (1/10))
      (maxLon + tileDegLon tile_size resolution cosCenterLat * (1/10))
      (tileDegLon tile_size resolution cosCenterLat)) :
    mkTile (stepCount
        (minLon - tileDegLon tile_size resolution cosCenterLat * (1/10))
        (maxLon + tileDegLon tile_size resolution cosCenterLat * (1/10))
        (tileDegLon tile_size resolution cosCenterLat)) r c
      (minLon - tileDegLon tile_size resolution cosCenterLat * (1/10))
      (minLat - tileDegLat tile_size resolution * (1/10))
      (tileDegLon tile_size resolution cosCenterLat)
      (tileDegLat tile_size resolution) tile_size resolution ∈
      calculate_tile_grid minLon maxLon minLat maxLat resolution tile_size
        cosCenterLat := by
  unfold calculate_tile_grid
  dsimp only
  exact List.mem_flatMap.mpr ⟨r, List.mem_range.mpr hr,
    List.mem_map.mpr ⟨c, List.mem_range.mpr hc, rfl⟩⟩

/-- A point between a tile's south-west and north-east corners lies in
its bounds ring. -/
theorem mkTile_contains (numCols : ℕ) (r c : ℕ)
    (extMinLon extMinLat dLon dLat tile_size resolution lon lat : ℚ)
    (h1 : extMinLon + (c : ℚ) * dLon ≤ lon)
    (h2 : lon ≤ extMinLon + (c : ℚ) * dLon + dLon)
    (h3 : extMinLat + (r : ℚ) * dLat ≤ lat)
    (h4 : lat ≤ extMinLat + (r : ℚ) * dLat + dLat) :
    ringContainsBBox (mkTile numCols r c extMinLon extMinLat dLon dLat
      tile_size resolution).bounds (lon, lat) = true := by
  unfold mkTile ringContainsBBox
  rw [decide_eq_true_iff]
  dsimp only
  exact ⟨h1, h2, h3, h4⟩

/-- C4: for every non-degenerate AOI bounding box and every point of
the original (unbuffered) box, some tile emitted by the grid planner
contains the point — the tiles jointly cover the whole box.  Holds for
any positive resolution, tile size and centre-latitude cosine. -/
theorem tile_grid_covers_aoi (minLon maxLon minLat maxLat : ℚ)
    (resolution tile_size cosCenterLat lon lat : ℚ)
    (hres : 0 < resolution) (hts : 0 < tile_size) (hcos : 0 < cosCenterLat)
    (hW : minLon < maxLon) (hH : minLat < maxLat)
    (hlon1 : minLon ≤ lon) (hlon2 : lon ≤ maxLon)
    (hlat1 : minLat ≤ lat) (hlat2 : lat ≤ maxLat) :
    ∃ t ∈ calculate_tile_grid minLon maxLon minLat maxLat resolution
      tile_size cosCenterLat, ringContainsBBox t.bounds (lon, lat) = true := by
  have hdLat : 0 < tileDegLat tile_size resolution := by
    unfold tileDegLat
    positivity
  have hdLon : 0 < tileDegLon tile_size resolution cosCenterLat := by
    unfold tileDegLon
    positivity
  obtain ⟨r, hr, hr1, hr2⟩ := exists_step_cover
    (minLat - tileDegLat tile_size resolution * (1/10))
    (maxLat + tileDegLat tile_size resolution * (1/10))
    (tileDegLat tile_size resolution) lat hdLat
    (by linarith) (by linarith)
  obtain ⟨c, hc, hc1, hc2⟩ := exists_step_cover
    (minLon - tileDegLon tile_size resolution cosCenterLat * (1/10))
    (maxLon + tileDegLon tile_size resolution cosCenterLat * (1/10))
    (tileDegLon tile_size resolution cosCenterLat) lon hdLon
    (by linarith) (by linarith)
  refine ⟨_, mkTile_mem_grid minLon maxLon minLat maxLat resolution
    tile_size cosCenterLat r c hr hc, ?_⟩
  exact mkTile_contains _ r c _ _ _ _ tile_size resolution lon lat hc1
    (by linarith) hr1 (by linarith)

/-- Witness for `tile_grid_covers_aoi`: the unit box around the origin
at 10 m resolution, 512-pixel tiles and equatorial cosine 1, with the
centre point. -/
theorem tile_grid_covers_aoi_witness :
    ∃ t ∈ calculate_tile_grid 0 1 0 1 10 512 1,
      ringContainsBBox t.bounds (1/2, 1/2) = true :=
  tile_grid_covers_aoi 0 1 0 1 10 512 1 (1/2) (1/2) (by norm_num)
    (by norm_num) (by norm_num) (by norm_num) (by norm_num) (by norm_num)
    (by norm_num) (by norm_num) (by norm_num)

/-- C7 counterexample: for the fully degenerate bounding box collapsed
to the single point `(0, 0)` (zero width and zero height), the grid
planner raises nothing and returns a tile list — of length 1 — because
the 10% buffer makes the walked extent non-degenerate.  No
`InvalidGeometryError` (or any degeneracy check) exists in
`calculate_tile_grid`. -/
theorem degenerate_bbox_counterexample :
    (calculate_tile_grid 0 0 0 0 10 512 1).length = 1 := by
  have hd : tileDegLat 512 10 = 512 / 11100 := by
    unfold tileDegLat
    norm_num
  have hd' : tileDegLon 512 10 1 = 512 / 11100 := by
    unfold tileDegLon
    norm_num
  have hceil : (Int.ceil ((1 : ℚ) / 5)) = 1 := by
    rw [Int.ceil_eq_iff]
    constructor <;> norm_num
  have hstep : stepCount (0 - 512 / 11100 * (1/10)) (0 + 512 / 11100 * (1/10))
      (512 / 11100) = 1 := by
    unfold stepCount
    norm_num [hceil]
  unfold calculate_tile_grid
  dsimp only
  rw [hd, hd', hstep]
  rfl

/-- C7 (amended): on a degenerate AOI bounding box (zero width and
height) the grid planner does not fail — it has no error path at all —
and still returns a non-empty tile list, since the 10% tile-size buffer
expands the degenerate box into a walkable extent. -/
theorem degenerate_bbox_returns_tiles (lon0 lat0 : ℚ)
    (resolution tile_size cosCenterLat : ℚ) (hres : 0 < resolution)
    (hts : 0 < tile_size) (hcos : 0 < cosCenterLat) :
    calculate_tile_grid lon0 lon0 lat0 lat0 resolution tile_size
      cosCenterLat ≠ [] := by
  have hdLat : 0 < tileDegLat tile_size resolution := by
    unfold tileDegLat
    positivity
  have hdLon : 0 < tileDegLon tile_size resolution cosCenterLat := by
    unfold tileDegLon
    positivity
  obtain ⟨r, hr, -, -⟩ := exists_step_cover
    (lat0 - tileDegLat tile_size resolution * (1/10))
    (lat0 + tileDegLat tile_size resolution * (1/10))
    (tileDegLat tile_size resolution) lat0 hdLat
    (by linarith) (by linarith)
  obtain ⟨c, hc, -, -⟩ := exists_step_cover
    (lon0 - tileDegLon tile_size resolution cosCenterLat * (1/10))
    (lon0 + tileDegLon tile_size resolution cosCenterLat * (1/10))
    (tileDegLon tile_size resolution cosCenterLat) lon0 hdLon
    (by linarith) (by linarith)
  exact List.ne_nil_of_mem (mkTile_mem_grid lon0 lon0 lat0 lat0 resolution
    tile_size cosCenterLat r c hr hc)

/-- Witness for `degenerate_bbox_returns_tiles` at the origin point
with 10 m resolution, 512-pixel tiles and cosine 1. -/
theorem degenerate_bbox_returns_tiles_witness :
    calculate_tile_grid 0 0 0 0 10 512 1 ≠ [] :=
  degenerate_bbox_returns_tiles 0 0 10 512 1 (by norm_num) (by norm_num)
    (by norm_num)

/-- The clipped radial weight always lies in `[0.1, 1.0]`. -/
theorem patchWeight_bounds (y x : ℕ) :
    (1/10 : ℝ) ≤ patchWeight y x ∧ patchWeight y x ≤ 1 := by
  unfold patchWeight
  dsimp only
  exact ⟨le_min (by norm_num) (le_max_left _ _), min_le_left _ _⟩

/-- The sliding stride evaluates to 128 pixels. -/
theorem stepSize_eq : stepSize = 128 := by
  unfold stepSize overlapFrac patchSize
  have h : ((256 : ℕ) : ℚ) * (1 - 1/2) = ((128 : ℤ) : ℚ) := by norm_num
  rw [h, Int.floor_intCast]
  rfl

/-- The padded extent reaches at least `ceil(H/step) * step`. -/
theorem le_ceilDivQ_mul (H : ℕ) : H ≤ ceilDivQ H * stepSize := by
  have hs : (0 : ℚ) < (stepSize : ℚ) := by
    rw [stepSize_eq]
    norm_num
  have h1 : ((H : ℚ) / (stepSize : ℚ)) ≤ (⌈(H : ℚ) / (stepSize : ℚ)⌉ : ℚ) :=
    Int.le_ceil _
  have h2 : (H : ℚ) ≤ (⌈(H : ℚ) / (stepSize : ℚ)⌉ : ℚ) * (stepSize : ℚ) := by
    rw [div_le_iff₀ hs] at h1
    exact h1
  have h3 : 0 ≤ ⌈(H : ℚ) / (stepSize : ℚ)⌉ :=
    Int.ceil_nonneg (by positivity)
  have h4 : ((⌈(H : ℚ) / (stepSize : ℚ)⌉.toNat : ℕ) : ℚ) =
      (⌈(H : ℚ) / (stepSize : ℚ)⌉ : ℚ) := by
    exact_mod_cast congrArg (fun z : ℤ => (z : ℚ)) (Int.toNat_of_nonneg h3)
  rw [← h4] at h2
  unfold ceilDivQ
  exact_mod_cast h2

/-- The padded extent minus one patch is a whole number of steps. -/
theorem paddedLen_sub (H : ℕ) :
    paddedLen H - patchSize = ceilDivQ H * stepSize := by
  unfold paddedLen padAmount
  have h := le_ceilDivQ_mul H
  omega

/-- The number of window positions along an axis. -/
theorem numWindows_eq (H : ℕ) : numWindows H = ceilDivQ H + 1 := by
  have hs : 0 < stepSize := by
    rw [stepSize_eq]
    decide
  unfold numWindows
  rw [paddedLen_sub, Nat.mul_div_cancel _ hs]

/-- The window whose start is `(i / step) * step` is among the emitted
window positions for any pixel row `i < H`. -/
theorem div_lt_numWindows (H i : ℕ) (hi : i < H) :
    i / stepSize < numWindows H := by
  have hs : 0 < stepSize := by
    rw [stepSize_eq]
    decide
  rw [numWindows_eq]
  have h1 : i < ceilDivQ H * stepSize := lt_of_lt_of_le hi (le_ceilDivQ_mul H)
  have h2 : i / stepSize < ceilDivQ H := (Nat.div_lt_iff_lt_mul hs).mpr h1
  omega

/-- Every pixel of the original `H×W` region receives a strictly
positive accumulated blending weight. -/
theorem weightCanvas_pos (H W i j : ℕ) (hi : i < H) (hj : j < W) :
    0 < weightCanvas H W i j := by
  have hs : 0 < stepSize := by
    rw [stepSize_eq]
    decide
  have hsp : stepSize ≤ patchSize := by
    rw [stepSize_eq]
    decide
  have hcov1 : i / stepSize * stepSize ≤ i := Nat.div_mul_le_self i stepSize
  have hcov2 : i < i / stepSize * stepSize + patchSize := by
    have hmod := Nat.div_add_mod i stepSize
    have hlt := Nat.mod_lt i hs
    have hmod' : i / stepSize * stepSize + i % stepSize = i := by
      rw [Nat.mul_comm] at hmod
      exact hmod
    omega
  have hcov3 : j / stepSize * stepSize ≤ j := Nat.div_mul_le_self j stepSize
  have hcov4 : j < j / stepSize * stepSize + patchSize := by
    have hmod := Nat.div_add_mod j stepSize
    have hlt := Nat.mod_lt j hs
    have hmod' : j / stepSize * stepSize + j % stepSize = j := by
      rw [Nat.mul_comm] at hmod
      exact hmod
    omega
  unfold weightCanvas
  have hterm : ∀ a' b' : ℕ, (0 : ℝ) ≤
      (if a' * stepSize ≤ i ∧ i < a' * stepSize + patchSize ∧
          b' * stepSize ≤ j ∧ j < b' * stepSize + patchSize
       then patchWeight (i - a' * stepSize) (j - b' * stepSize) else 0) := by
    intro a' b'
    split_ifs
    · exact le_trans (by norm_num) (patchWeight_bounds _ _).1
    · exact le_refl 0
  have hmema : i / stepSize ∈ Finset.range (numWindows H) :=
    Finset.mem_range.mpr (div_lt_numWindows H i hi)
  have hmemb : j / stepSize ∈ Finset.range (numWindows W) :=
    Finset.mem_range.mpr (div_lt_numWindows W j hj)
  have hinner : (1/10 : ℝ) ≤ ∑ b' ∈ Finset.range (numWindows W),
      (if i / stepSize * stepSize ≤ i ∧
          i < i / stepSize * stepSize + patchSize ∧
          b' * stepSize ≤ j ∧ j < b' * stepSize + patchSize
       then patchWeight (i - i / stepSize * stepSize) (j - b' * stepSize)
       else 0) := by
    have hval : (1/10 : ℝ) ≤
        (if i / stepSize * stepSize ≤ i ∧
            i < i / stepSize * stepSize + patchSize ∧
            j / stepSize * stepSize ≤ j ∧ j < j / stepSize * stepSize + patchSize
         then patchWeight (i - i / stepSize * stepSize)
           (j - j / stepSize * stepSize) else 0) := by
      rw [if_pos ⟨hcov1, hcov2, hcov3, hcov4⟩]
      exact (patchWeight_bounds _ _).1
    exact le_trans hval
      (Finset.single_le_sum (fun b' _ => hterm (i / stepSize) b') hmemb)
  calc (0 : ℝ) < 1/10 := by norm_num
    _ ≤ ∑ b' ∈ Finset.range (numWindows W),
        (if i / stepSize * stepSize ≤ i ∧
            i < i / stepSize * stepSize + patchSize ∧
            b' * stepSize ≤ j ∧ j < b' * stepSize + patchSize
         then patchWeight (i - i / stepSize * stepSize) (j - b' * stepSize)
         else 0) := hinner
    _ ≤ ∑ a ∈ Finset.range (numWindows H), ∑ b ∈ Finset.range (numWindows W),
        (if a * stepSize ≤ i ∧ i < a * stepSize + patchSize ∧
            b * stepSize ≤ j ∧ j < b * stepSize + patchSize
         then patchWeight (i - a * stepSize) (j - b * stepSize) else 0) :=
      Finset.single_le_sum
        (fun a' _ => Finset.sum_nonneg fun b' _ => hterm a' b') hmema

/-- C1: after padding to `ceil(dim/step)*step + patch_size` (with
`step = patch_size/2`) and accumulating the clipped radial weight mask
over all sliding windows at stride `step`, every value of the weight
mask lies in `[0.1, 1.0]` and every pixel of the cropped `H×W` output
region has a strictly positive `weight_canvas` before the elementwise
division, so that division never divides by zero there. -/
theorem patch_blend_weight_positive (H W i j : ℕ) (hi : i < H)
    (hj : j < W) :
    (∀ y, y < patchSize → ∀ x, x < patchSize →
      (1/10 : ℝ) ≤ patchWeight y x ∧ patchWeight y x ≤ 1) ∧
    0 < weightCanvas H W i j :=
  ⟨fun y _ x _ => patchWeight_bounds y x, weightCanvas_pos H W i j hi hj⟩

/-- Witness for `patch_blend_weight_positive` on a 1×1 surface at its
only pixel. -/
theorem patch_blend_weight_positive_witness :
    (∀ y, y < patchSize → ∀ x, x < patchSize →
      (1/10 : ℝ) ≤ patchWeight y x ∧ patchWeight y x ≤ 1) ∧
    0 < weightCanvas 1 1 0 0 :=
  patch_blend_weight_positive 1 1 0 0 (by decide) (by decide)

/-- `find?` returns the element at position `k` when it satisfies the
predicate and every earlier element fails it. -/
theorem find?_eq_of_earlier_false {α : Type} (p : α → Bool) (l : List α)
    (k : ℕ) (x : α) (hk : l[k]? = some x) (hx : p x = true)
    (hprev : ∀ k' y, k' < k → l[k']? = some y → p y = false) :
    l.find? p = some x := by
  induction l generalizing k with
  | nil => simp at hk
  | cons a t ih =>
      cases k with
      | zero =>
          simp only [List.getElem?_cons_zero, Option.some.injEq] at hk
          subst hk
          exact List.find?_cons_of_pos _ hx
      | succ k =>
          have ha : p a = false := hprev 0 a (Nat.succ_pos k) (by simp)
          rw [List.find?_cons_of_neg _ (by simp [ha])]
          refine ih k (by simpa using hk) ?_
          intro k' y hk' hy
          exact hprev (k' + 1) y (Nat.succ_lt_succ hk') (by simpa using hy)

/-- Merging two rasters with identical footprints keeps the first
raster's dimensions and, on every pixel of that footprint, the first
raster's content. -/
theorem mergeFirst_pair_identical {α : Type} (fill : α)
    (g1 g2 : GeoRaster α) (htr : g2.transform = g1.transform)
    (hh : g2.h = g1.h) (hw : g2.w = g1.w) (ha : 0 < g1.transform.a)
    (he : g1.transform.e < 0) :
    (mergeFirst fill g1 [g2]).h = g1.h ∧
    (mergeFirst fill g1 [g2]).w = g1.w ∧
    ∀ i j : ℕ, i < g1.h → j < g1.w →
      (mergeFirst fill g1 [g2]).px i j = g1.px i j := by
  have hane : g1.transform.a ≠ 0 := ne_of_gt ha
  have hene : g1.transform.e ≠ 0 := ne_of_lt he
  have hleft : g2.left = g1.left := by
    unfold GeoRaster.left
    rw [htr]
  have htop : g2.top = g1.top := by
    unfold GeoRaster.top
    rw [htr]
  have hright : g2.right = g1.right := by
    unfold GeoRaster.right
    rw [htr, hw]
  have hbottom : g2.bottom = g1.bottom := by
    unfold GeoRaster.bottom
    rw [htr, hh]
  have hW : dstWest g1 [g2] = g1.left := by
    unfold dstWest
    simp [hleft]
  have hN : dstNorth g1 [g2] = g1.top := by
    unfold dstNorth
    simp [htop]
  have hE : dstEast g1 [g2] = g1.right := by
    unfold dstEast
    simp [hright]
  have hS : dstSouth g1 [g2] = g1.bottom := by
    unfold dstSouth
    simp [hbottom]
  have hresX : resX g1 = g1.transform.a := abs_of_pos ha
  have hresY : resY g1 = -g1.transform.e := abs_of_neg he
  have houtW : outW g1 [g2] = g1.w := by
    unfold outW
    rw [hE, hW, hresX]
    unfold GeoRaster.right GeoRaster.left
    have hsimp : g1.transform.c + (g1.w : ℚ) * g1.transform.a -
        g1.transform.c = (g1.w : ℚ) * g1.transform.a := by ring
    rw [hsimp, mul_div_cancel_right₀ _ hane, round_natCast]
    exact Int.toNat_natCast g1.w
  have houtH : outH g1 [g2] = g1.h := by
    unfold outH
    rw [hN, hS, hresY]
    unfold GeoRaster.top GeoRaster.bottom
    have hsimp : g1.transform.f - (g1.transform.f +
        (g1.h : ℚ) * g1.transform.e) = ((g1.h : ℚ) * g1.transform.e) * -1 := by
      ring
    rw [hsimp]
    have hdiv : ((g1.h : ℚ) * g1.transform.e) * -1 / -g1.transform.e =
        (g1.h : ℚ) := by
      field_simp
    rw [hdiv, round_natCast]
    exact Int.toNat_natCast g1.h
  have hrow : rowOff g1 [g2] g1 = 0 := by
    unfold rowOff
    rw [hN]
    simp
  have hcol : colOff g1 [g2] g1 = 0 := by
    unfold colOff
    rw [hW]
    unfold GeoRaster.left
    simp
  refine ⟨houtH, houtW, ?_⟩
  intro i j hi hj
  have hcov : coversB g1 [g2] g1 i j = true := by
    unfold coversB
    rw [hrow, hcol, decide_eq_true_iff]
    refine ⟨Int.ofNat_nonneg i, ?_, Int.ofNat_nonneg j, ?_⟩
    · rw [zero_add]
      exact_mod_cast hi
    · rw [zero_add]
      exact_mod_cast hj
  show mergedPx fill g1 [g2] i j = g1.px i j
  unfold mergedPx
  have hfind : List.find? (fun d => coversB g1 [g2] d i j) (g1 :: [g2]) =
      some g1 := List.find?_cons_of_pos _ hcov
  rw [hfind]
  dsimp only
  rw [hrow, hcol]
  simp

/-- C5: mosaic assembly uses a first-wins merge.  First conjunct: at
any output cell, the merged pixel value comes from the earliest dataset
in the sequence whose footprint covers the cell (sampled at the cell's
offset inside that dataset), regardless of any later overlapping
dataset.  Second conjunct: assembling a tile list whose first usable
tile is followed by a tile with the identical footprint but different
pixel content (after skipping a data-less tile) succeeds and yields a
mosaic with the first tile's dimensions, the first usable tile's CRS,
and the first tile's content at every pixel. -/
theorem mosaic_first_wins_merge :
    (∀ (α : Type) (fill : α) (d0 : GeoRaster α) (ds : List (GeoRaster α))
        (i j k : ℕ) (dk : GeoRaster α),
      (d0 :: ds)[k]? = some dk →
      coversB d0 ds dk i j = true →
      (∀ k' d', k' < k → (d0 :: ds)[k']? = some d' →
        coversB d0 ds d' i j = false) →
      (mergeFirst fill d0 ds).px i j =
        dk.px ((i : ℤ) - rowOff d0 ds dk).toNat
          ((j : ℤ) - colOff d0 ds dk).toNat) ∧
    (∀ (α : Type) (fill : α) (h w : ℕ) (tr : Affine) (crs1 crs2 : String)
        (px1 px2 : ℕ → ℕ → α) (b0 b1 b2 : List (ℚ × ℚ)),
      crs1 ≠ "" → 0 < tr.a → tr.e < 0 →
      ∃ m, build_mosaic_from_tiles fill
          [⟨none, none, none, b0⟩,
           ⟨some ⟨h, w, px1⟩, some tr, some crs1, b1⟩,
           ⟨some ⟨h, w, px2⟩, some tr, some crs2, b2⟩] = .ok m ∧
        m.crs = crs1 ∧ m.raster.h = h ∧ m.raster.w = w ∧
        ∀ i j : ℕ, i < h → j < w → m.raster.px i j = px1 i j) := by
  constructor
  · intro α fill d0 ds i j k dk hk hcov hprev
    show mergedPx fill d0 ds i j = _
    unfold mergedPx
    rw [find?_eq_of_earlier_false (fun d => coversB d0 ds d i j)
      (d0 :: ds) k dk hk hcov hprev]
  · intro α fill h w tr crs1 crs2 px1 px2 b0 b1 b2 hcrs ha he
    unfold build_mosaic_from_tiles ensureTileTransform orDefault
    simp only [hcrs, List.foldlM, List.isEmpty, bind, Except.bind, pure,
      Except.pure, Bool.false_eq_true, if_false, ite_false,
      List.nil_append, List.cons_append, List.append_nil]
    have hpair := mergeFirst_pair_identical fill
      (⟨h, w, tr, crs1, px1⟩ : GeoRaster α)
      (⟨h, w, tr, if crs2 = "" then ("EPSG:4326") else crs2, px2⟩ :
        GeoRaster α) rfl rfl rfl ha he
    exact ⟨_, rfl, rfl, hpair.1, hpair.2.1, fun i j hi hj =>
      hpair.2.2 i j hi hj⟩

/-- Witness for `mosaic_first_wins_merge`: a single 1×1 raster covering
its only cell, and the three-tile scenario (one data-less tile, then
two identical-footprint 1×1 tiles with values 5 and 7). -/
theorem mosaic_first_wins_merge_witness :
    ((mergeFirst (0 : ℚ) rasterA []).px 0 0 =
      rasterA.px ((0 : ℤ) - rowOff rasterA [] rasterA).toNat
        ((0 : ℤ) - colOff rasterA [] rasterA).toNat) ∧
    (∃ m, build_mosaic_from_tiles (0 : ℚ)
        [⟨none, none, none, []⟩,
         ⟨some ⟨1, 1, fun _ _ => 5⟩, some unitTransform,
          some ("EPSG:32643"), []⟩,
         ⟨some ⟨1, 1, fun _ _ => 7⟩, some unitTransform,
          some ("EPSG:32644"), []⟩] = .ok m ∧
      m.crs = "EPSG:32643" ∧ m.raster.h = 1 ∧ m.raster.w = 1 ∧
      ∀ i j : ℕ, i < 1 → j < 1 →
        m.raster.px i j = (fun _ _ => (5 : ℚ)) i j) :=
  ⟨mosaic_first_wins_merge.1 ℚ 0 rasterA [] 0 0 0 rasterA (by simp)
      (by unfold coversB rowOff colOff dstNorth dstWest resX resY
            GeoRaster.top GeoRaster.left rasterA unitTransform
          norm_num)
      (fun k' d' hlt _ => absurd hlt (Nat.not_lt_zero k')),
   mosaic_first_wins_merge.2 ℚ 0 1 1 unitTransform ("EPSG:32643")
     ("EPSG:32644") (fun _ _ => 5) (fun _ _ => 7) [] [] [] (by decide)
     (by norm_num [unitTransform]) (by norm_num [unitTransform])⟩

end Theorems
